import Mathlib

/-!
Shallow embedding of the conversational product-search core
(`app/services/session_manager.py`, `rejection_tracker.py`,
`conversation_memory.py`, `follow_up_generator.py`,
`conversational_agent_service.py`) and proofs of the specification claims.

Conventions of the embedding:
* Python strings are `String` / `List Char`; `str.lower`/`str.upper` are
  modelled by `Char.toLower` / `Char.toUpper` (ASCII case mapping, which is
  what every input in this code base exercises).
* Python `re` patterns used by the tracker are fixed word sequences joined
  by `\s+` and delimited by `\b`; they are embedded as explicit
  word-sequence matchers over `List Char` with the same word-boundary and
  whitespace classes as `re` uses on ASCII text.
* Python sets of product ids are `List String` with membership semantics
  (insertion-ordered, duplicate-free by construction of the update
  operations).
* The hosted LLM and `json.loads` are external collaborators: an LLM call
  is an `LLMOutcome` (it either raises or returns text), and JSON parsing
  is an oracle parameter `String → Option Json` (`none` models a
  `JSONDecodeError`).
-/

namespace Ecom

/-- Apostrophe character (written via its code point). -/
def apos : Char := Char.ofNat 39

/-- Backtick character (written via its code point). -/
def btick : Char := Char.ofNat 96

/-- Double-quote character (written via its code point). -/
def dquote : Char := Char.ofNat 34

/-- Bullet character U+2022, part of the list-marker class in
`_extract_questions_manually`. -/
def bullet : Char := Char.ofNat 0x2022

/-- Python regex `\w` on ASCII text: letters, digits and underscore. -/
def isWordChar (c : Char) : Bool := c.isAlphanum || c = '_'

/-- Python regex `\s` (and `str.strip` default) on ASCII text:
space, tab, newline, carriage return, vertical tab, form feed. -/
def isPySpace (c : Char) : Bool :=
  c = ' ' || c = '\t' || c = '\n' || c = '\r' || c = Char.ofNat 11 || c = Char.ofNat 12

/-- Python `str.strip()`: drop leading and trailing whitespace. -/
def pyStrip (s : List Char) : List Char :=
  ((s.dropWhile isPySpace).reverse.dropWhile isPySpace).reverse

/-- Match a literal character sequence at the head of the input, returning
the rest of the input on success. -/
def dropLit : List Char → List Char → Option (List Char)
  | [], s => some s
  | _ :: _, [] => none
  | c :: cs, d :: ds => if c = d then dropLit cs ds else none

/-- Match `\s+` at the head of the input (at least one whitespace
character, consumed greedily). -/
def dropSpaces1 : List Char → Option (List Char)
  | [] => none
  | c :: rest => if isPySpace c then some (rest.dropWhile isPySpace) else none

/-- Match a sequence of literal words joined by `\s+` at the head of the
input. -/
def matchWords : List (List Char) → List Char → Option (List Char)
  | [], s => some s
  | [w], s => dropLit w s
  | w :: w2 :: ws, s =>
    match dropLit w s with
    | some r =>
      match dropSpaces1 r with
      | some r2 => matchWords (w2 :: ws) r2
      | none => none
    | none => none

/-- Regex `\b` immediately after a word character: the next character, if
any, must not be a word character. -/
def boundaryAfter : List Char → Bool
  | [] => true
  | c :: _ => !isWordChar c

/-- A tracker pattern is a set of alternative word sequences (alternatives
arise from optional groups such as `(?:the\s+)?` and `colors?`). -/
abbrev TrackPat := List (List (List Char))

/-- Does some alternative of the pattern match at this position (with the
trailing word boundary)? -/
def patMatchHere (alts : TrackPat) (s : List Char) : Bool :=
  alts.any fun ws =>
    match matchWords ws s with
    | some rest => boundaryAfter rest
    | none => false

/-- Scan the input for a pattern occurrence; `prevW` records whether the
character before the current position is a word character (for the leading
`\b`). -/
def searchAlts (alts : TrackPat) : Bool → List Char → Bool
  | _, [] => false
  | prevW, c :: rest =>
    (!prevW && patMatchHere alts (c :: rest)) || searchAlts alts (isWordChar c) rest

/-- Model of `re.search` for the tracker patterns. -/
def searchPattern (alts : TrackPat) (s : List Char) : Bool :=
  searchAlts alts false s

/-- Convert a literal word to its character list. -/
def w (s : String) : List Char := s.toList

/-- The word `don't` (with its apostrophe). -/
def dontWord : List Char := w "don" ++ [apos] ++ w "t"

/-- Pattern 1 of `detect_implicit_rejection`: the five ordinal patterns
`\bnot\s+(?:the\s+)?first\b` … with their 0-based indices. -/
def ordinalPatterns : List (TrackPat × Nat) :=
  [ ([[w "not", w "the", w "first"], [w "not", w "first"]], 0)
  , ([[w "not", w "the", w "second"], [w "not", w "second"]], 1)
  , ([[w "not", w "the", w "third"], [w "not", w "third"]], 2)
  , ([[w "not", w "the", w "fourth"], [w "not", w "fourth"]], 3)
  , ([[w "not", w "the", w "fifth"], [w "not", w "fifth"]], 4) ]

/-- Pattern 2: generic dismissal phrases. -/
def rejectionPhrases : List TrackPat :=
  [ [[w "not", w "these"]]
  , [[w "show", w "different"]]
  , [[w "something", w "else"]]
  , [[w "other", w "options"]]
  , [[w "different", w "ones"]]
  , [[w "not", w "interested"]]
  , [[dontWord, w "like"]] ]

/-- Pattern 3: price-objection phrases. -/
def priceRejectionPhrases : List TrackPat :=
  [ [[w "too", w "expensive"]]
  , [[w "too", w "costly"]]
  , [[w "cheaper"]]
  , [[w "less", w "expensive"]]
  , [[w "lower", w "price"]] ]

/-- Pattern 4: style/color-objection phrases (`colors?` yields two
alternatives, the greedy `s` tried first). -/
def styleRejectionPhrases : List TrackPat :=
  [ [[w "different", w "color"]]
  , [[w "other", w "colors"], [w "other", w "color"]]
  , [[w "not", w "this", w "color"]]
  , [[w "different", w "style"]] ]

/-- Pattern 5 helper: match `\b(?:not|except)\s+(PRD\d+)\b` at the current
position, returning the captured id and the rest of the input. The keyword
literals are lowercase, exactly as in the source pattern. -/
def matchNotExceptHere (s : List Char) : Option (List Char × List Char) :=
  let kw :=
    match dropLit (w "not") s with
    | some r => some r
    | none => dropLit (w "except") s
  match kw with
  | none => none
  | some r1 =>
    match dropSpaces1 r1 with
    | none => none
    | some r2 =>
      match dropLit (w "PRD") r2 with
      | none => none
      | some r3 =>
        let digits := r3.takeWhile Char.isDigit
        let rest := r3.dropWhile Char.isDigit
        if digits.isEmpty then none
        else if boundaryAfter rest then some (w "PRD" ++ digits, rest) else none

/-- Model of `re.findall(r'\b(?:not|except)\s+(PRD\d+)\b', s)`:
left-to-right non-overlapping scan collecting the captured group. Fuel is
the length of the input. -/
def findallAux : Nat → Bool → List Char → List String
  | 0, _, _ => []
  | _ + 1, _, [] => []
  | fuel + 1, prevW, c :: rest =>
    if !prevW then
      match matchNotExceptHere (c :: rest) with
      | some (idc, rest2) => String.mk idc :: findallAux fuel true rest2
      | none => findallAux fuel (isWordChar c) rest
    else findallAux fuel (isWordChar c) rest

/-- Entry point for the pattern-5 `findall`. -/
def findallPRDIds (s : List Char) : List String :=
  findallAux (s.length + 1) false s

/-- One entry of the `shown_products` argument of
`detect_implicit_rejection`: a product dict, of which the function reads
only `product.get("id")` (absent key modelled as `none`). -/
structure ShownEntry where
  id : Option String
  deriving Repr, DecidableEq

/-- Python list indexing `shown_products[index]` (guarded by the length
check in the source). -/
def entryAt : List ShownEntry → Nat → Option ShownEntry
  | [], _ => none
  | e :: _, 0 => some e
  | _ :: rest, n + 1 => entryAt rest n

/-- The id stored at a position, if any. -/
def idAt (sp : List ShownEntry) (i : Nat) : Option String :=
  (entryAt sp i).bind (·.id)

/-- Pattern 1 of `detect_implicit_rejection`: for each firing ordinal
pattern, append the id of the product at that index (the source checks
`shown_products and index < len(shown_products)` and then the truthiness
of the id; there is no duplicate guard in this loop). -/
def stage1Step (ml : List Char) (sp : List ShownEntry) (acc : List String)
    (pi : TrackPat × Nat) : List String :=
  if searchPattern pi.1 ml then
    if !sp.isEmpty && decide (pi.2 < sp.length) then
      match entryAt sp pi.2 with
      | some e =>
        match e.id with
        | some pid => if pid ≠ "" then acc ++ [pid] else acc
        | none => acc
      | none => acc
    else acc
  else acc

/-- Fold of pattern 1 over the five ordinal patterns. -/
def stage1 (ml : List Char) (sp : List ShownEntry) (acc : List String) : List String :=
  ordinalPatterns.foldl (stage1Step ml sp) acc

/-- Append every truthy id of `shown_products` that is not already
collected (the body of the loops in patterns 2, 3 and 4). -/
def addShownAll (sp : List ShownEntry) (acc : List String) : List String :=
  sp.foldl
    (fun acc e =>
      match e.id with
      | some pid => if pid ≠ "" ∧ pid ∉ acc then acc ++ [pid] else acc
      | none => acc)
    acc

/-- Patterns 2, 3 and 4 share this shape: if any phrase of the class
matches (the loop breaks after the first match, and every phrase has the
same effect), append all recently shown ids. -/
def phraseStage (phrases : List TrackPat) (ml : List Char) (sp : List ShownEntry)
    (acc : List String) : List String :=
  if phrases.any (fun p => searchPattern p ml) then
    if sp.isEmpty then acc else addShownAll sp acc
  else acc

/-- Pattern 5: fold the `findall` matches with the `not in rejected_ids`
guard. The scanned text is `message_lower.upper()`, exactly as in the
source. -/
def stage5 (mlUpper : List Char) (acc : List String) : List String :=
  (findallPRDIds mlUpper).foldl
    (fun acc pid => if pid ∉ acc then acc ++ [pid] else acc) acc

/-- Model of `RejectionTracker.detect_implicit_rejection`. The session is
only tested for existence; `shownProducts = none` models the `None`
default (replaced by `[]`). -/
def detectImplicitRejection (sessionExists : Bool) (message : String)
    (shownProducts : Option (List ShownEntry)) : List String :=
  let ml := pyStrip (message.toList.map Char.toLower)
  -- (this is `normalizeMsg message`; `normalizeMsg` is declared later)
  if !sessionExists then []
  else
    let sp := shownProducts.getD []
    let a1 := stage1 ml sp []
    let a2 := phraseStage rejectionPhrases ml sp a1
    let a3 := phraseStage priceRejectionPhrases ml sp a2
    let a4 := phraseStage styleRejectionPhrases ml sp a3
    stage5 (ml.map Char.toUpper) a4

/-- A JSON value, as produced by `json.loads`. -/
inductive Json where
  | null
  | bool (b : Bool)
  | num (n : Int)
  | str (s : String)
  | arr (xs : List Json)
  | obj (fields : List (String × Json))

/-- Python truthiness of a JSON value (used for
`if session.accumulated_constraints`). -/
def pyTruthy : Json → Bool
  | Json.null => false
  | Json.bool b => b
  | Json.num n => n ≠ 0
  | Json.str s => s ≠ ""
  | Json.arr xs => !xs.isEmpty
  | Json.obj fields => !fields.isEmpty

/-- One conversation turn (`{"role": …, "content": …}`). -/
structure Turn where
  role : String
  content : String
  deriving Repr, DecidableEq

/-- State of one session (`SessionState` in `session_manager.py`).
Timestamps are seconds as natural numbers; the `accumulated_constraints`
field holds whatever JSON value `json.loads` produced (the source never
checks its shape). The free-form `metadata` dict is not read or written by
any modelled operation and is omitted. -/
structure SessionState where
  sessionId : String
  createdAt : Nat
  lastUpdated : Nat
  conversationHistory : List Turn
  shownProducts : List String
  rejectedProducts : List String
  accumulatedConstraints : Json

/-- A freshly created session (`SessionState.__init__`). -/
def freshSession (sid : String) (now : Nat) : SessionState :=
  { sessionId := sid
  , createdAt := now
  , lastUpdated := now
  , conversationHistory := []
  , shownProducts := []
  , rejectedProducts := []
  , accumulatedConstraints := Json.obj [] }

/-- The session table plus the configured timeout
(`SessionManager.sessions` / `session_timeout`). -/
structure ManagerState where
  sessions : List (String × SessionState)
  timeout : Nat

/-- Dictionary lookup on the session table. -/
def lookupSession : List (String × SessionState) → String → Option SessionState
  | [], _ => none
  | (k, v) :: rest, sid => if k = sid then some v else lookupSession rest sid

/-- Dictionary deletion (`del self.sessions[session_id]`). -/
def eraseSession (table : List (String × SessionState)) (sid : String) :
    List (String × SessionState) :=
  table.filter fun kv => decide (kv.1 ≠ sid)

/-- Dictionary assignment `self.sessions[session_id] = state` for a key
already present. -/
def setSession : List (String × SessionState) → String → SessionState →
    List (String × SessionState)
  | [], _, _ => []
  | (k, v) :: rest, sid, s =>
    if k = sid then (k, s) :: setSession rest sid s
    else (k, v) :: setSession rest sid s

/-- Model of `SessionManager._is_expired`:
`datetime.now() - session.last_updated > self.session_timeout`. A
last-updated time in the future gives a non-positive difference, which is
never greater than the timeout — matching truncated subtraction on `Nat`. -/
def isExpired (now : Nat) (timeout : Nat) (s : SessionState) : Bool :=
  decide (timeout < now - s.lastUpdated)

/-- Model of `SessionManager.get_session`: returns the session if present
and not expired; an expired session is evicted from the table first. -/
def getSession (now : Nat) (m : ManagerState) (sid : String) :
    Option SessionState × ManagerState :=
  match lookupSession m.sessions sid with
  | none => (none, m)
  | some s =>
    if isExpired now m.timeout s then
      (none, { m with sessions := eraseSession m.sessions sid })
    else (some s, m)

/-- Model of `SessionManager.update_session`: refresh `last_updated` and
store the state, a no-op when the id is unknown. -/
def updateSession (now : Nat) (m : ManagerState) (sid : String)
    (s : SessionState) : ManagerState :=
  if (lookupSession m.sessions sid).isSome then
    { m with sessions := setSession m.sessions sid { s with lastUpdated := now } }
  else m

/-- Python `set.update(ids)` on an insertion-ordered id set. -/
def setUnion (s : List String) (ids : List String) : List String :=
  ids.foldl (fun a i => if i ∈ a then a else a ++ [i]) s

/-- Model of `RejectionTracker.mark_shown`. -/
def markShown (now : Nat) (m : ManagerState) (sid : String)
    (ids : List String) : ManagerState :=
  match getSession now m sid with
  | (none, m1) => m1
  | (some s, m1) =>
    updateSession now m1 sid { s with shownProducts := setUnion s.shownProducts ids }

/-- Model of `RejectionTracker.mark_rejected`. -/
def markRejected (now : Nat) (m : ManagerState) (sid : String)
    (ids : List String) : ManagerState :=
  match getSession now m sid with
  | (none, m1) => m1
  | (some s, m1) =>
    updateSession now m1 sid { s with rejectedProducts := setUnion s.rejectedProducts ids }

/-- Manager-level `detect_implicit_rejection`: the session lookup (with
its possible eviction) followed by the pure pattern scan. -/
def detectManager (now : Nat) (m : ManagerState) (sid : String) (message : String)
    (shownProducts : Option (List ShownEntry)) : List String × ManagerState :=
  match getSession now m sid with
  | (sOpt, m1) => (detectImplicitRejection sOpt.isSome message shownProducts, m1)

/-- A product record as returned by the retrieval collaborator: an id (the
only field `filter_products` reads), the JSON-encoded `document` text and
the metadata mapping. -/
structure Product where
  id : Option String
  document : String
  metadata : List (String × Json)

/-- Model of `RejectionTracker.filter_products` on the looked-up session:
with no session or no rejections the input list is returned unchanged,
otherwise products whose id is in the rejected set are removed (a missing
id is never in a set of strings, so such products are kept). -/
def filterProducts (sOpt : Option SessionState) (products : List Product) :
    List Product :=
  match sOpt with
  | none => products
  | some s =>
    if s.rejectedProducts.isEmpty then products
    else
      products.filter fun p =>
        match p.id with
        | none => true
        | some pid => decide (pid ∉ s.rejectedProducts)

/-- Manager-level `filter_products` (the session lookup plus the pure
filter). -/
def filterProductsManager (now : Nat) (m : ManagerState) (sid : String)
    (products : List Product) : List Product × ManagerState :=
  match getSession now m sid with
  | (sOpt, m1) => (filterProducts sOpt products, m1)

/-- Outcome of one call to the hosted LLM: the call either raises
(network error, rate limit, provider fault) or returns the reply text. -/
inductive LLMOutcome where
  | raise
  | reply (text : String)

/-- The three backticks of a markdown code fence. -/
def fence3 : List Char := [btick, btick, btick]

/-- Model of `re.sub(r"^```(?:json)?", "", t)` for a `t` known to start
with a fence: the greedy optional group removes `json` when present. -/
def dropLeadingFence (s : List Char) : List Char :=
  if s.take 7 = fence3 ++ w "json" then s.drop 7 else s.drop 3

/-- Model of `re.sub(r"```$", "", t)`: without `re.MULTILINE`, `$` matches
at the end of the string or just before a final newline. -/
def stripTrailingFence (s : List Char) : List Char :=
  let r := s.reverse
  if r.take 3 = fence3 then (r.drop 3).reverse
  else if r.take 4 = '\n' :: fence3 then (r.drop 4).reverse ++ ['\n']
  else s

/-- The shared clean-up applied to every LLM reply before `json.loads`:
`response.content.strip()`, then — when the text starts with a code
fence — the two `re.sub` calls and another `strip()`. -/
def cleanLLMJson (text : String) : String :=
  let t0 := pyStrip text.toList
  if t0.take 3 = fence3 then
    String.mk (pyStrip (stripTrailingFence (dropLeadingFence t0)))
  else String.mk t0

/-- Result of `ConversationMemoryManager.extract_accumulated_constraints`:
the constraints value, whether the LLM collaborator was invoked, and the
manager state after the call (eviction and cache write included). -/
structure ExtractResult where
  constraints : Json
  llmCalled : Bool
  state : ManagerState

/-- Model of `extract_accumulated_constraints`. `hasLLM` is the `self.llm`
presence check; `llm` is the outcome of the (single) `invoke` call;
`parse` is the `json.loads` oracle. The source calls `get_session` twice —
once inside `get_conversation_history` and once for the cache check — and
so does the model. Any exception inside the `try` block (the LLM raising,
or `json.loads` failing) is caught and degrades to an empty mapping. -/
def extractAccumulatedConstraints (hasLLM : Bool) (llm : LLMOutcome)
    (parse : String → Option Json) (now : Nat) (m : ManagerState)
    (sid : String) : ExtractResult :=
  if !hasLLM then ⟨Json.obj [], false, m⟩
  else
    let (sOpt1, m1) := getSession now m sid
    let history := (sOpt1.map (·.conversationHistory)).getD []
    if history.isEmpty then ⟨Json.obj [], false, m1⟩
    else
      let (sOpt2, m2) := getSession now m1 sid
      match sOpt2 with
      | some s =>
        if pyTruthy s.accumulatedConstraints then ⟨s.accumulatedConstraints, false, m2⟩
        else
          match llm with
          | .raise => ⟨Json.obj [], true, m2⟩
          | .reply text =>
            match parse (cleanLLMJson text) with
            | none => ⟨Json.obj [], true, m2⟩
            | some j =>
              ⟨j, true, updateSession now m2 sid { s with accumulatedConstraints := j }⟩
      | none =>
        match llm with
        | .raise => ⟨Json.obj [], true, m2⟩
        | .reply text =>
          match parse (cleanLLMJson text) with
          | none => ⟨Json.obj [], true, m2⟩
          | some j => ⟨j, true, m2⟩

/-- Shared body of `add_user_message` / `add_ai_message`: append the turn
to the session history and store the session. The LangChain
`ChatMessageHistory` mirror kept in `self.memories` is write-only state
that no modelled operation reads back; it is omitted. -/
def appendTurn (now : Nat) (m : ManagerState) (sid : String) (t : Turn) :
    ManagerState :=
  match getSession now m sid with
  | (none, m1) => m1
  | (some s, m1) =>
    updateSession now m1 sid
      { s with conversationHistory := s.conversationHistory ++ [t] }

/-- Model of `ConversationMemoryManager.add_user_message`. -/
def addUserMessage (now : Nat) (m : ManagerState) (sid : String)
    (message : String) : ManagerState :=
  appendTurn now m sid ⟨"user", message⟩

/-- Model of `ConversationMemoryManager.add_ai_message`. -/
def addAiMessage (now : Nat) (m : ManagerState) (sid : String)
    (message : String) : ManagerState :=
  appendTurn now m sid ⟨"assistant", message⟩

/-- Model of `get_conversation_history`. -/
def getConversationHistory (now : Nat) (m : ManagerState) (sid : String) :
    List Turn × ManagerState :=
  match getSession now m sid with
  | (some s, m1) => (s.conversationHistory, m1)
  | (none, m1) => ([], m1)

/-- Model of `RejectionTracker.get_shown_products` (the orchestrator turns
the returned set into a list; the model keeps insertion order). -/
def getShownProducts (now : Nat) (m : ManagerState) (sid : String) :
    List String × ManagerState :=
  match getSession now m sid with
  | (some s, m1) => (s.shownProducts, m1)
  | (none, m1) => ([], m1)

/-- Python dict-key membership `k in constraints` for the constraint
value. All call sites pass a mapping; a non-mapping value would raise
`TypeError` in Python and is outside the domain exercised by the
theorems below. -/
def jsonHasKey (c : Json) (k : String) : Bool :=
  match c with
  | Json.obj fields => (fields.map Prod.fst).contains k
  | _ => false

/-- Model of `FollowUpQuestionGenerator._get_fallback_questions`: one
canned question per missing constraint category, padded with two generic
questions when fewer than two resulted, capped at four. -/
def getFallbackQuestions (constraints : Json) : List String :=
  let qs : List String := []
  let qs := if jsonHasKey constraints "price" then qs
    else qs ++ ["What\x27s your budget range for this purchase?"]
  let qs := if jsonHasKey constraints "occasion" then qs
    else qs ++ ["What occasion is this for?"]
  let qs := if jsonHasKey constraints "color" then qs
    else qs ++ ["Do you have a preferred color?"]
  let qs := if jsonHasKey constraints "brand" then qs
    else qs ++ ["Are you looking for any specific brand?"]
  let qs := if qs.length < 2 then
      qs ++ ["Would you like to see more options?", "Do you need help with size selection?"]
    else qs
  qs.take 4

/-- The list-marker class of `_extract_questions_manually`:
`[\d\-\*\•]`. -/
def isMarkerChar (c : Char) : Bool := c.isDigit || c = '-' || c = '*' || c = bullet

/-- The quote characters stripped by `line.strip('"\x27')`. -/
def isQuoteChar (c : Char) : Bool := c = dquote || c = apos

/-- Model of `re.sub(r'^[\d\-\*\•]+[\.\)]\s*', '', line)`: a maximal run
of marker characters must be followed by `.` or `)` (no shorter run can
succeed, because every marker character is outside `[\.\)]`). -/
def stripListMarker (line : List Char) : List Char :=
  let run := line.takeWhile isMarkerChar
  let rest := line.dropWhile isMarkerChar
  if run.isEmpty then line
  else
    match rest with
    | c :: rest2 => if c = '.' || c = ')' then rest2.dropWhile isPySpace else line
    | [] => line

/-- Strip characters satisfying `p` from both ends (Python
`str.strip(chars)`). -/
def stripBothChars (p : Char → Bool) (s : List Char) : List Char :=
  ((s.dropWhile p).reverse.dropWhile p).reverse

/-- Model of `_extract_questions_manually`: keep lines that end with `?`
after whitespace, list-marker and quote stripping; cap at four. -/
def extractQuestionsManually (t : List Char) : List String :=
  ((t.splitOn '\n').filterMap fun l =>
    let l1 := pyStrip l
    let l2 := stripListMarker l1
    let l3 := stripBothChars isQuoteChar l2
    if l3.getLast? = some '?' then some (String.mk l3) else none).take 4

/-- Model of `FollowUpQuestionGenerator._parse_questions`: strip fences,
parse; a JSON array keeps its non-empty string items, any other JSON value
yields `[]`, and a `JSONDecodeError` falls back to manual extraction on
the fence-stripped text. -/
def parseQuestions (parse : String → Option Json) (responseText : String) :
    List String :=
  let cleaned := cleanLLMJson responseText
  match parse cleaned with
  | some (Json.arr xs) =>
    xs.filterMap fun j =>
      match j with
      | Json.str q => if (pyStrip q.toList).isEmpty then none else some q
      | _ => none
  | some _ => []
  | none => extractQuestionsManually cleaned.toList

/-- Model of `FollowUpQuestionGenerator.generate`. The history, products
and constraints are consumed only by `_build_prompt`, whose output feeds
the opaque LLM; the `llm` parameter is the outcome of that call. An
exception from `invoke` is caught and answered with the fallback
questions — note that the fallback path does not apply the
`max_questions` cap. -/
def followUpGenerate (llm : LLMOutcome) (parse : String → Option Json)
    (_conversationHistory : List Turn) (_currentProducts : List Product)
    (accumulatedConstraints : Json) (maxQuestions : Nat) : List String :=
  match llm with
  | .raise => getFallbackQuestions accumulatedConstraints
  | .reply text =>
    (parseQuestions parse (String.mk (pyStrip text.toList))).take maxQuestions

/-- Lookup of a key in a JSON object field list (Python `dict.get`). -/
def lookupField : List (String × Json) → String → Option Json
  | [], _ => none
  | (k, v) :: rest, key => if k = key then some v else lookupField rest key

/-- Python `str(...)` of a JSON value, used only to build prompt text for
the opaque LLM (container rendering is approximated). -/
def pyStr : Json → String
  | Json.str s => s
  | Json.num n => toString n
  | Json.bool b => if b then "True" else "False"
  | Json.null => "None"
  | Json.arr _ => ""
  | Json.obj _ => ""

/-- Python `int(x)` on a JSON value: numbers and booleans convert, a
string converts when it is (after stripping) an optionally signed digit
run, everything else raises (`none`). -/
def pyInt : Json → Option Int
  | Json.num n => some n
  | Json.bool b => some (if b then 1 else 0)
  | Json.str s =>
    let t := pyStrip s.toList
    let (neg, digits) :=
      match t with
      | c :: rest => if c = '-' then (true, rest) else (false, t)
      | [] => (false, t)
    if digits.isEmpty || !digits.all Char.isDigit then none
    else
      let v : Int := Int.ofNat (String.mk digits).toNat!
      some (if neg then -v else v)
  | _ => none

/-- One iteration of the product-formatting loop inside
`_generate_structured_recommendation`. `none` models the `continue` taken
when anything in the loop body raises: `json.loads(document)` failing,
`doc.get` on a non-dict document, or `int(price)` on a truthy
non-convertible price. The thousands separator and `.title()` casing of
the f-string are prompt cosmetics consumed only by the opaque LLM and are
not reproduced. -/
def formatProductLine (parse : String → Option Json) (i : Nat) (p : Product) :
    Option String :=
  match parse p.document with
  | some (Json.obj docFields) =>
    let productId := p.id.getD ""
    let title :=
      match lookupField docFields "title" with
      | some v => pyStr v
      | none => "Unknown Product"
    let price := (lookupField p.metadata "price").getD (Json.num 0)
    let stockStatus :=
      String.mk ((pyStr ((lookupField p.metadata "stock_status").getD (Json.str ""))).toList.map
        fun c => if c = '_' then ' ' else c)
    let priceStr :=
      if pyTruthy price then (pyInt price).map (fun n => "₹" ++ toString n)
      else some "Price not available"
    match priceStr with
    | some ps =>
      some (toString i ++ ". " ++ productId ++ " - " ++ title ++ " (" ++ ps ++ ", " ++ stockStatus ++ ")")
    | none => none
  | some _ => none
  | none => none

/-- The `except` fallback of `_generate_structured_recommendation`:
"I found N products…" plus the truthy ids of the retrieved products in
original order. -/
def recFallback (products : List Product) : String × List String :=
  ( "I found " ++ toString products.length ++ " products for you. Here are my top recommendations!"
  , products.filterMap fun p =>
      match p.id with
      | some pid => if pid ≠ "" then some pid else none
      | none => none )

/-- Model of `_generate_structured_recommendation`: returns
`(response_text, recommended_product_ids)`. Any exception inside the
`try` block — the LLM raising, `json.loads` failing, or `result.get` on a
non-dict reply — lands in the fallback. -/
def generateStructuredRecommendation (llm : LLMOutcome)
    (parse : String → Option Json) (query : String) (products : List Product)
    (_history : List Turn) (_constraints : Json) : String × List String :=
  if products.isEmpty then
    ( "I couldn\x27t find any products matching \x27" ++ query
        ++ "\x27. Could you try different keywords?"
    , [] )
  else
    let formatted := products.enum.filterMap fun ip =>
      formatProductLine parse (ip.1 + 1) ip.2
    if formatted.isEmpty then
      ("I found some products but couldn\x27t format them. Please try again.", [])
    else
      match llm with
      | .raise => recFallback products
      | .reply text =>
        match parse (cleanLLMJson text) with
        | some (Json.obj fields) =>
          ( (match lookupField fields "response_text" with
             | some (Json.str t) => t
             | some _ => ""
             | none => "")
          , (match lookupField fields "recommended_product_ids" with
             | some (Json.arr xs) =>
               xs.filterMap fun j =>
                 match j with
                 | Json.str s => some s
                 | _ => none
             | _ => []) )
        | some _ => recFallback products
        | none => recFallback products

/-- Collaborator outcomes for one `generate_response` turn: the memory
manager's LLM presence flag and invoke outcome, the shared `json.loads`
oracle, the retrieval call (which may raise), and the recommendation and
follow-up LLM calls. -/
structure Oracles where
  hasLLM : Bool
  extractLLM : LLMOutcome
  parse : String → Option Json
  searchResult : Except Unit (List Product)
  recLLM : LLMOutcome
  followLLM : LLMOutcome

/-- The response record of `generate_response`. The `metadata` entry
(constraints plus rejection statistics, whose rejection rate is a float)
is not modelled. -/
structure TurnResult where
  responseText : String
  recommendedProductIds : List String
  followUpQuestions : List String
  sessionId : String

/-- Model of `_get_fallback_response`: the fixed apologetic response. -/
def getFallbackResponse (sid : String) : TurnResult :=
  { responseText := "I apologize, but I encountered an error processing your request. Could you please try rephrasing?"
  , recommendedProductIds := []
  , followUpQuestions :=
      [ "Would you like to try a different search?"
      , "Can you provide more details about what you\x27re looking for?" ]
  , sessionId := sid }

/-- Python `l[-n:]`. -/
def pyLastN {α : Type} (n : Nat) (l : List α) : List α :=
  l.drop (l.length - n)

/-- Steps 1–3 of `generate_response`: read the recently shown slice, run
implicit-rejection detection and mark the detected ids rejected, record
the user turn, then read history and (possibly cached) constraints.
Returns the history, the constraints and the manager state these steps
committed. -/
def stepsBeforeSearch (o : Oracles) (now : Nat) (m : ManagerState)
    (sid : String) (message : String) : List Turn × Json × ManagerState :=
  let (shownIds, m1) := getShownProducts now m sid
  let recentProducts := (pyLastN 5 shownIds).map fun pid => ShownEntry.mk (some pid)
  let (rejectedIds, m2) := detectManager now m1 sid message (some recentProducts)
  let m3 := if rejectedIds.isEmpty then m2 else markRejected now m2 sid rejectedIds
  let m4 := addUserMessage now m3 sid message
  let (history, m5) := getConversationHistory now m4 sid
  let er := extractAccumulatedConstraints o.hasLLM o.extractLLM o.parse now m5 sid
  (history, er.constraints, er.state)

/-- Model of `ConversationalAgentService.generate_response`. The `try`
block spans steps 1–8; within this embedding the only call site that can
raise out of its own handler is the retrieval call of step 4 (constraint
extraction, recommendation generation and follow-up generation each catch
their own failures), so an erroring `searchResult` is the unhandled
exception that the top-level handler converts into the fixed fallback
response — leaving the state committed by steps 1–3 in place. -/
def generateResponse (o : Oracles) (now : Nat) (m : ManagerState)
    (sid : String) (message : String) : TurnResult × ManagerState :=
  let (history, constraints, m6) := stepsBeforeSearch o now m sid message
  match o.searchResult with
  | .error _ => (getFallbackResponse sid, m6)
  | .ok products0 =>
    let (products, m7) := filterProductsManager now m6 sid products0
    let topIds := (products.take 5).filterMap fun p =>
      match p.id with
      | some pid => if pid ≠ "" then some pid else none
      | none => none
    let m8 := markShown now m7 sid topIds
    let recd := generateStructuredRecommendation o.recLLM o.parse message
      (products.take 5) history constraints
    let m9 := addAiMessage now m8 sid recd.1
    let followUps := followUpGenerate o.followLLM o.parse history
      (products.take 5) constraints 4
    ( { responseText := recd.1
      , recommendedProductIds := recd.2
      , followUpQuestions := followUps
      , sessionId := sid }
    , m9 )

/-- One call in a `RejectionTracker` trace (for the rejected-set
invariant): each call carries the time at which it happens. -/
inductive TrackerOp where
  | markShownOp (now : Nat) (ids : List String)
  | markRejectedOp (now : Nat) (ids : List String)
  | detectOp (now : Nat) (message : String) (shown : Option (List ShownEntry))

/-- Apply one tracker call to the manager state (the detection call
mutates state only through the eviction its `get_session` may perform). -/
def applyOp (sid : String) (m : ManagerState) : TrackerOp → ManagerState
  | .markShownOp now ids => markShown now m sid ids
  | .markRejectedOp now ids => markRejected now m sid ids
  | .detectOp now msg sh => (detectManager now m sid msg sh).2

/-- Run a trace of tracker calls. -/
def runOps (sid : String) (ops : List TrackerOp) (m : ManagerState) : ManagerState :=
  ops.foldl (applyOp sid) m

/-- The ids explicitly passed to `mark_shown` in a trace. -/
def opShownIds : TrackerOp → List String
  | .markShownOp _ ids => ids
  | _ => []

/-- The ids explicitly passed to `mark_rejected` in a trace. -/
def opRejectedIds : TrackerOp → List String
  | .markRejectedOp _ ids => ids
  | _ => []

/-- The product ids explicitly named in a detection call's message (the
pattern-5 `findall` on the uppercased lowered message). -/
def opNamedIds : TrackerOp → List String
  | .detectOp _ msg _ =>
    findallPRDIds ((pyStrip (msg.toList.map Char.toLower)).map Char.toUpper)
  | _ => []

/-- Normalisation applied to the user message by
`detect_implicit_rejection` (`message.lower().strip()`). -/
def normalizeMsg (message : String) : List Char :=
  pyStrip (message.toList.map Char.toLower)

/-- The message contains a generic dismissal phrase, in the sense of the
tracker's pattern class 2. -/
def mentionsGenericDismissal (message : String) : Bool :=
  rejectionPhrases.any fun p => searchPattern p (normalizeMsg message)

/-- The message contains a price-objection phrase, in the sense of the
tracker's pattern class 3. -/
def mentionsPriceObjection (message : String) : Bool :=
  priceRejectionPhrases.any fun p => searchPattern p (normalizeMsg message)

/-- The entries of a recently-shown list carry pairwise-distinct id
values: an id value determines its position. -/
def distinctIds (sp : List ShownEntry) : Prop :=
  ∀ i j pid, idAt sp i = some pid → idAt sp j = some pid → i = j

/-- Every entry of the session table stored under `sid` has its rejected
set contained in `R` (the invariant carried through a tracker trace). -/
def rejectedWithin (m : ManagerState) (sid : String) (R : List String) : Prop :=
  ∀ kv ∈ m.sessions, kv.1 = sid → ∀ x ∈ kv.2.rejectedProducts, x ∈ R

/-- The six canned strings of the deterministic follow-up fallback. -/
def fallbackQuestionPool : List String :=
  [ "What\x27s your budget range for this purchase?"
  , "What occasion is this for?"
  , "Do you have a preferred color?"
  , "Are you looking for any specific brand?"
  , "Would you like to see more options?"
  , "Do you need help with size selection?" ]

/-! ### Basic lemmas about the session table -/

theorem lookupSession_mem {table : List (String × SessionState)} {sid : String}
    {s : SessionState} (h : lookupSession table sid = some s) : (sid, s) ∈ table := by
  induction table with
  | nil => simp [lookupSession] at h
  | cons kv rest ih =>
    obtain ⟨k, v⟩ := kv
    by_cases hk : k = sid
    · subst hk
      simp [lookupSession] at h
      simp [h]
    · simp [lookupSession, hk] at h
      exact List.mem_cons_of_mem _ (ih h)

theorem lookupSession_eraseSession (table : List (String × SessionState))
    (sid : String) : lookupSession (eraseSession table sid) sid = none := by
  induction table with
  | nil => rfl
  | cons kv rest ih =>
    obtain ⟨k, v⟩ := kv
    by_cases hk : k = sid
    · subst hk
      simpa [eraseSession, lookupSession] using ih
    · simpa [eraseSession, lookupSession, hk] using ih

theorem getSession_entries_subset {now : Nat} {m : ManagerState} {sid : String}
    {kv : String × SessionState} (h : kv ∈ (getSession now m sid).2.sessions) :
    kv ∈ m.sessions := by
  unfold getSession at h
  split at h
  · exact h
  · split at h
    · exact (List.mem_filter.mp h).1
    · exact h

theorem getSession_found {now : Nat} {m : ManagerState} {sid : String}
    {s : SessionState} (h : (getSession now m sid).1 = some s) :
    getSession now m sid = (some s, m) := by
  cases hl : lookupSession m.sessions sid with
  | none => simp [getSession, hl] at h
  | some s0 =>
    cases hexp : isExpired now m.timeout s0 with
    | true => simp [getSession, hl, hexp] at h
    | false =>
      simp [getSession, hl, hexp] at h
      subst h
      simp [getSession, hl, hexp]

theorem getSession_of_lookup {now : Nat} {m : ManagerState} {sid : String}
    {s : SessionState} (hl : lookupSession m.sessions sid = some s)
    (hfresh : isExpired now m.timeout s = false) :
    getSession now m sid = (some s, m) := by
  unfold getSession
  simp [hl, hfresh]

theorem setSession_mem {table : List (String × SessionState)} {sid : String}
    {s : SessionState} {kv : String × SessionState}
    (h : kv ∈ setSession table sid s) :
    kv ∈ table ∨ (kv.1 = sid ∧ kv.2 = s) := by
  induction table with
  | nil => simp [setSession] at h
  | cons kv0 rest ih =>
    obtain ⟨k, v⟩ := kv0
    by_cases hk : k = sid
    · simp only [setSession] at h
      rw [if_pos hk] at h
      rcases List.mem_cons.mp h with h1 | h1
      · subst h1
        exact Or.inr ⟨hk, rfl⟩
      · rcases ih h1 with h2 | h2
        · exact Or.inl (List.mem_cons_of_mem _ h2)
        · exact Or.inr h2
    · simp only [setSession] at h
      rw [if_neg hk] at h
      rcases List.mem_cons.mp h with h1 | h1
      · exact Or.inl (by simp [h1])
      · rcases ih h1 with h2 | h2
        · exact Or.inl (List.mem_cons_of_mem _ h2)
        · exact Or.inr h2

theorem updateSession_entries {now : Nat} {m : ManagerState} {sid : String}
    {s : SessionState} {kv : String × SessionState}
    (h : kv ∈ (updateSession now m sid s).sessions) :
    kv ∈ m.sessions ∨ (kv.1 = sid ∧ kv.2 = { s with lastUpdated := now }) := by
  unfold updateSession at h
  split at h
  · exact setSession_mem h
  · exact Or.inl h

theorem lookupSession_setSession_of_mem {table : List (String × SessionState)}
    {sid : String} (s : SessionState)
    (h : (lookupSession table sid).isSome) :
    lookupSession (setSession table sid s) sid = some s := by
  induction table with
  | nil => simp [lookupSession] at h
  | cons kv rest ih =>
    obtain ⟨k, v⟩ := kv
    by_cases hk : k = sid
    · subst hk
      simp [setSession, lookupSession]
    · simp only [lookupSession, if_neg hk] at h
      simpa [setSession, lookupSession, hk] using ih h

/-! ### Claim C1 — explicit-ID negation ("not PRD123" / "except PRD123")

The source's pattern `r'\b(?:not|except)\s+(PRD\d+)\b'` spells the
keywords in lowercase but is matched against `message_lower.upper()`, an
all-uppercase string, so the pattern can never fire. This contradicts the
function's own docstring (`"not PRD123" → reject specific product`) and
the spec. -/

/-- Claim C1 (code bug): on the inputs the claim and the function's
docstring promise to reject, `detect_implicit_rejection` returns the empty
list — the explicit-ID pattern is dead because its lowercase `not|except`
literals are searched inside the uppercased message. -/
theorem detect_explicit_id_negation_dead :
    detectImplicitRejection true "not PRD123" (some []) = []
    ∧ detectImplicitRejection true "except PRD123" (some []) = []
    ∧ findallPRDIds (String.toList "NOT PRD123") = []
    ∧ findallPRDIds (String.toList "not PRD123") = ["PRD123"] := by
  refine ⟨by decide, by decide, by decide, by decide⟩

/-! ### Claim C6 — `filter_products` -/

/-- Claim C6: `filter_products` is idempotent; every product whose id is
in the session's rejected set is removed; with a missing session or no
rejections the input list is returned unchanged. -/
theorem filterProducts_spec (sOpt : Option SessionState) (products : List Product) :
    filterProducts sOpt (filterProducts sOpt products) = filterProducts sOpt products
    ∧ (∀ s, sOpt = some s → ∀ p ∈ products, ∀ pid, p.id = some pid →
        pid ∈ s.rejectedProducts → p ∉ filterProducts sOpt products)
    ∧ ((sOpt = none ∨ ∃ s, sOpt = some s ∧ s.rejectedProducts = []) →
        filterProducts sOpt products = products) := by
  match sOpt with
  | none =>
    refine ⟨rfl, ?_, fun _ => rfl⟩
    intro s hs
    simp at hs
  | some s =>
    cases hemp : s.rejectedProducts.isEmpty with
    | true =>
      refine ⟨by simp [filterProducts, hemp], ?_, by simp [filterProducts, hemp]⟩
      intro s' hs' p _ pid _ hrej _
      cases hs'
      rw [List.isEmpty_iff] at hemp
      rw [hemp] at hrej
      cases hrej
    | false =>
      refine ⟨?_, ?_, ?_⟩
      · simp only [filterProducts, hemp, Bool.false_eq_true, if_false]
        rw [List.filter_filter]
        congr 1
        funext p
        cases hp : p.id <;> simp [hp]
      · intro s' hs' p _ pid hpid hrej hmem
        cases hs'
        simp only [filterProducts, hemp, Bool.false_eq_true, if_false] at hmem
        have hpred := (List.mem_filter.mp hmem).2
        rw [hpid] at hpred
        simp at hpred
        exact hpred hrej
      · rintro (h | ⟨s', hs', hrej⟩)
        · cases h
        · cases hs'
          rw [hrej] at hemp
          simp at hemp

/-- Witness for C6 at concrete inputs: an unknown session leaves the list
unchanged, and a product with a rejected id is removed. -/
theorem filterProducts_spec_witness :
    filterProducts none [Product.mk (some "PRD1") "" []]
      = [Product.mk (some "PRD1") "" []]
    ∧ Product.mk (some "PRD1") "" []
        ∉ filterProducts (some { freshSession "s" 0 with rejectedProducts := ["PRD1"] })
            [Product.mk (some "PRD1") "" []] := by
  constructor
  · exact (filterProducts_spec none [Product.mk (some "PRD1") "" []]).2.2 (Or.inl rfl)
  · exact (filterProducts_spec _ [Product.mk (some "PRD1") "" []]).2.1 _ rfl _
      (List.mem_singleton.mpr rfl) "PRD1" rfl (List.mem_singleton.mpr rfl)

/-! ### Claim C7 — lazy expiry on read -/

/-- Claim C7: a session whose `last_updated` is older than the timeout is
unreachable via `get_session`: the call returns `none` and evicts the
entry from the table. -/
theorem getSession_expired_evicts (now : Nat) (m : ManagerState) (sid : String)
    (s : SessionState) (hl : lookupSession m.sessions sid = some s)
    (hexp : m.timeout < now - s.lastUpdated) :
    (getSession now m sid).1 = none
    ∧ lookupSession (getSession now m sid).2.sessions sid = none := by
  have hexpired : isExpired now m.timeout s = true := decide_eq_true hexp
  constructor
  · unfold getSession
    simp [hl, hexpired]
  · unfold getSession
    simp only [hl, hexpired, if_true]
    simpa using lookupSession_eraseSession m.sessions sid

/-- Witness for C7: a session last updated at time 0 with a 10-second
timeout is gone when read at time 11. -/
theorem getSession_expired_evicts_witness :
    (getSession 11 ⟨[("s", freshSession "s" 0)], 10⟩ "s").1 = none
    ∧ lookupSession (getSession 11 ⟨[("s", freshSession "s" 0)], 10⟩ "s").2.sessions "s"
        = none :=
  getSession_expired_evicts 11 ⟨[("s", freshSession "s" 0)], 10⟩ "s"
    (freshSession "s" 0) (by rfl) (by decide)

/-! ### Claim C4 — constraint extraction: empty history and cache reuse -/

/-- Claim C4: with no turns in the history, `extract_accumulated_constraints`
returns an empty mapping without invoking the LLM; with a (truthy) cached
constraint mapping it returns the cache as-is without invoking the LLM and
without touching the state, so a second consecutive call returns the
identical mapping and performs no LLM call either. -/
theorem extractConstraints_cache_semantics (hasLLM : Bool) (llm : LLMOutcome)
    (parse : String → Option Json) (now : Nat) (m : ManagerState) (sid : String) :
    ((((getSession now m sid).1.map (·.conversationHistory)).getD []).isEmpty = true →
      (extractAccumulatedConstraints hasLLM llm parse now m sid).constraints = Json.obj []
      ∧ (extractAccumulatedConstraints hasLLM llm parse now m sid).llmCalled = false)
    ∧ (∀ s, hasLLM = true → (getSession now m sid).1 = some s →
        s.conversationHistory ≠ [] →
        pyTruthy s.accumulatedConstraints = true →
        (extractAccumulatedConstraints hasLLM llm parse now m sid).constraints
          = s.accumulatedConstraints
        ∧ (extractAccumulatedConstraints hasLLM llm parse now m sid).llmCalled = false
        ∧ (extractAccumulatedConstraints hasLLM llm parse now m sid).state = m
        ∧ (extractAccumulatedConstraints hasLLM llm parse now
            (extractAccumulatedConstraints hasLLM llm parse now m sid).state sid).constraints
          = s.accumulatedConstraints
        ∧ (extractAccumulatedConstraints hasLLM llm parse now
            (extractAccumulatedConstraints hasLLM llm parse now m sid).state sid).llmCalled
          = false) := by
  constructor
  · intro hhist
    cases hasLLM with
    | false => exact ⟨rfl, rfl⟩
    | true =>
      rcases hG1 : getSession now m sid with ⟨sOpt1, m1⟩
      have hhist1 : ((sOpt1.map (·.conversationHistory)).getD []).isEmpty = true := by
        rw [hG1] at hhist
        exact hhist
      constructor <;>
        simp [extractAccumulatedConstraints, hG1, hhist1]
  · intro s hLLM hs hne hcache
    subst hLLM
    have hG : getSession now m sid = (some s, m) := getSession_found hs
    have hE : s.conversationHistory.isEmpty = false := by
      cases hE : s.conversationHistory.isEmpty with
      | true => exact absurd (List.isEmpty_iff.mp hE) hne
      | false => rfl
    have hfix :
        extractAccumulatedConstraints true llm parse now m sid
          = ⟨s.accumulatedConstraints, false, m⟩ := by
      simp [extractAccumulatedConstraints, hG, hE, hcache]
    rw [hfix]
    exact ⟨rfl, rfl, rfl, by rw [hfix], by rw [hfix]⟩

/-- Witness for C4: a session whose history has one turn and whose cached
constraints are `{"color": "pink"}` gets the cache back without any LLM
call, twice in a row. -/
theorem extractConstraints_cache_semantics_witness :
    (extractAccumulatedConstraints true LLMOutcome.raise (fun _ => none) 0
      ⟨[("sess", { freshSession "sess" 0 with
          conversationHistory := [⟨"user", "hi"⟩]
          accumulatedConstraints := Json.obj [("color", Json.str "pink")] })], 100⟩
      "sess").constraints = Json.obj [("color", Json.str "pink")]
    ∧ (extractAccumulatedConstraints true LLMOutcome.raise (fun _ => none) 0
      ⟨[("sess", { freshSession "sess" 0 with
          conversationHistory := [⟨"user", "hi"⟩]
          accumulatedConstraints := Json.obj [("color", Json.str "pink")] })], 100⟩
      "sess").llmCalled = false := by
  have h := (extractConstraints_cache_semantics true LLMOutcome.raise (fun _ => none) 0
    ⟨[("sess", { freshSession "sess" 0 with
        conversationHistory := [⟨"user", "hi"⟩]
        accumulatedConstraints := Json.obj [("color", Json.str "pink")] })], 100⟩
    "sess").2
    { freshSession "sess" 0 with
        conversationHistory := [⟨"user", "hi"⟩]
        accumulatedConstraints := Json.obj [("color", Json.str "pink")] }
    rfl rfl (by simp) rfl
  exact ⟨h.1, h.2.1⟩

/-! ### Claim C8 — constraint extraction degrades on LLM failure -/

/-- Claim C8: whenever the extraction LLM call happens and fails — the
invoke raising, or its reply failing `json.loads` — the failure is caught
and `extract_accumulated_constraints` returns the empty mapping instead of
propagating. -/
theorem extractConstraints_llm_failure_empty (hasLLM : Bool) (llm : LLMOutcome)
    (parse : String → Option Json) (now : Nat) (m : ManagerState) (sid : String)
    (hfail : llm = LLMOutcome.raise
      ∨ ∃ t, llm = LLMOutcome.reply t ∧ parse (cleanLLMJson t) = none)
    (hcalled : (extractAccumulatedConstraints hasLLM llm parse now m sid).llmCalled = true) :
    (extractAccumulatedConstraints hasLLM llm parse now m sid).constraints = Json.obj [] := by
  cases hasLLM with
  | false => simp [extractAccumulatedConstraints] at hcalled
  | true =>
    rcases hG1 : getSession now m sid with ⟨sOpt1, m1⟩
    cases hH : ((sOpt1.map (·.conversationHistory)).getD []).isEmpty with
    | true => simp [extractAccumulatedConstraints, hG1, hH] at hcalled
    | false =>
      rcases hG2 : getSession now m1 sid with ⟨sOpt2, m2⟩
      rcases hfail with hfail | ⟨t, hfail, hparse⟩ <;> subst hfail
      · cases sOpt2 with
        | none => simp [extractAccumulatedConstraints, hG1, hH, hG2]
        | some s =>
          cases hC : pyTruthy s.accumulatedConstraints with
          | true =>
            simp [extractAccumulatedConstraints, hG1, hH, hG2, hC] at hcalled
          | false =>
            simp [extractAccumulatedConstraints, hG1, hH, hG2, hC]
      · cases sOpt2 with
        | none => simp [extractAccumulatedConstraints, hG1, hH, hG2, hparse]
        | some s =>
          cases hC : pyTruthy s.accumulatedConstraints with
          | true =>
            simp [extractAccumulatedConstraints, hG1, hH, hG2, hC] at hcalled
          | false =>
            simp [extractAccumulatedConstraints, hG1, hH, hG2, hC, hparse]

/-- Witness for C8: a raising LLM call on a session with one turn and no
cache yields the empty mapping. -/
theorem extractConstraints_llm_failure_empty_witness :
    (extractAccumulatedConstraints true LLMOutcome.raise (fun _ => none) 0
      ⟨[("sess", { freshSession "sess" 0 with
          conversationHistory := [⟨"user", "hi"⟩] })], 100⟩
      "sess").constraints = Json.obj [] :=
  extractConstraints_llm_failure_empty true LLMOutcome.raise (fun _ => none) 0
    ⟨[("sess", { freshSession "sess" 0 with
        conversationHistory := [⟨"user", "hi"⟩] })], 100⟩
    "sess" (Or.inl rfl) (by rfl)

/-! ### Claim C5 — follow-up question generator bounds

The claim asserts that `generate` never returns more than `max_questions`
items *and* that total collaborator failure yields 2–4 fallback items.
These conflict: the `except` path returns the fallback list uncapped by
`max_questions`, so with `max_questions = 1` and a raising LLM the result
has 4 items. -/

/-- Counterexample to C5 as stated: with `max_questions = 1`, empty known
constraints and a raising LLM, `generate` returns 4 questions. -/
theorem followUpGenerate_cap_counterexample :
    ¬ ((followUpGenerate LLMOutcome.raise (fun _ => none) [] [] (Json.obj []) 1).length ≤ 1) := by
  decide

/-- Amended claim C5: on the successful-LLM path `generate` returns at
most `max_questions` items; under total collaborator failure it returns
the deterministic fallback list — always between 2 and 4 items, all drawn
from the canned pool — independently of `max_questions`. -/
theorem followUpGenerate_cap_and_fallback (parse : String → Option Json)
    (hist : List Turn) (prods : List Product) (fields : List (String × Json))
    (maxQ : Nat) :
    (∀ text,
      (followUpGenerate (LLMOutcome.reply text) parse hist prods (Json.obj fields) maxQ).length
        ≤ maxQ)
    ∧ followUpGenerate LLMOutcome.raise parse hist prods (Json.obj fields) maxQ
        = getFallbackQuestions (Json.obj fields)
    ∧ 2 ≤ (getFallbackQuestions (Json.obj fields)).length
    ∧ (getFallbackQuestions (Json.obj fields)).length ≤ 4
    ∧ (∀ q ∈ getFallbackQuestions (Json.obj fields), q ∈ fallbackQuestionPool) := by
  refine ⟨?_, rfl, ?_, ?_, ?_⟩
  · intro text
    simp only [followUpGenerate]
    exact (List.length_take _ _).trans_le (Nat.min_le_left _ _)
  all_goals
    cases h1 : jsonHasKey (Json.obj fields) "price" <;>
    cases h2 : jsonHasKey (Json.obj fields) "occasion" <;>
    cases h3 : jsonHasKey (Json.obj fields) "color" <;>
    cases h4 : jsonHasKey (Json.obj fields) "brand" <;>
      simp [getFallbackQuestions, h1, h2, h3, h4, fallbackQuestionPool]

/-- Witness for the amended C5 at concrete inputs: the cap holds for a
reply, and the failure path returns the fallback list. -/
theorem followUpGenerate_cap_and_fallback_witness :
    (followUpGenerate (LLMOutcome.reply "[]") (fun _ => none) [] [] (Json.obj []) 3).length ≤ 3
    ∧ followUpGenerate LLMOutcome.raise (fun _ => none) [] [] (Json.obj []) 3
        = getFallbackQuestions (Json.obj []) :=
  ⟨(followUpGenerate_cap_and_fallback (fun _ => none) [] [] [] 3).1 "[]",
   (followUpGenerate_cap_and_fallback (fun _ => none) [] [] [] 3).2.1⟩

/-! ### Lemmas about the stages of `detect_implicit_rejection` -/

theorem foldl_mem_mono {β : Type} (f : List String → β → List String)
    (hf : ∀ a b x, x ∈ a → x ∈ f a b) :
    ∀ (l : List β) (a : List String) (x : String), x ∈ a → x ∈ l.foldl f a := by
  intro l
  induction l with
  | nil => intro a x hx; simpa using hx
  | cons b bs ih => intro a x hx; exact ih _ _ (hf a b x hx)

theorem mem_addShownAll_of_mem (sp : List ShownEntry) (acc : List String)
    (x : String) (hx : x ∈ acc) : x ∈ addShownAll sp acc := by
  refine foldl_mem_mono _ ?_ sp acc x hx
  intro a e y hy
  cases e.id with
  | none => exact hy
  | some pid =>
    show y ∈ if pid ≠ "" ∧ pid ∉ a then a ++ [pid] else a
    by_cases hc : pid ≠ "" ∧ pid ∉ a
    · rw [if_pos hc]
      exact List.mem_append_left _ hy
    · rw [if_neg hc]
      exact hy

theorem mem_phraseStage_of_mem (phrases : List TrackPat) (ml : List Char)
    (sp : List ShownEntry) (acc : List String) (x : String) (hx : x ∈ acc) :
    x ∈ phraseStage phrases ml sp acc := by
  unfold phraseStage
  split
  · split
    · exact hx
    · exact mem_addShownAll_of_mem sp acc x hx
  · exact hx

theorem mem_stage5_of_mem (mlUpper : List Char) (acc : List String)
    (x : String) (hx : x ∈ acc) : x ∈ stage5 mlUpper acc := by
  refine foldl_mem_mono _ ?_ _ acc x hx
  intro a pid y hy
  by_cases hc : pid ∉ a
  · rw [if_pos hc]
    exact List.mem_append_left _ hy
  · rw [if_neg hc]
    exact hy

theorem mem_addShownAll (sp : List ShownEntry) :
    ∀ (acc : List String) (e : ShownEntry), e ∈ sp → ∀ pid, e.id = some pid →
      pid ≠ "" → pid ∈ addShownAll sp acc := by
  induction sp with
  | nil => intro acc e he; simp at he
  | cons e0 rest ih =>
    intro acc e he pid hid hne
    have hstep : addShownAll (e0 :: rest) acc
        = addShownAll rest (match e0.id with
            | some pid0 => if pid0 ≠ "" ∧ pid0 ∉ acc then acc ++ [pid0] else acc
            | none => acc) := rfl
    rcases List.mem_cons.mp he with he1 | he1
    · subst he1
      rw [hstep, hid]
      have hmem : pid ∈ (if pid ≠ "" ∧ pid ∉ acc then acc ++ [pid] else acc) := by
        by_cases hc : pid ≠ "" ∧ pid ∉ acc
        · rw [if_pos hc]
          exact List.mem_append_right _ (List.mem_singleton_self pid)
        · rw [if_neg hc]
          rcases not_and_or.mp hc with hc1 | hc1
          · exact absurd hne hc1
          · exact not_not.mp hc1
      exact mem_addShownAll_of_mem rest _ pid hmem
    · rw [hstep]
      exact ih _ e he1 pid hid hne

theorem mem_phraseStage (phrases : List TrackPat) (ml : List Char)
    (sp : List ShownEntry) (acc : List String)
    (hfire : (phrases.any fun p => searchPattern p ml) = true) (hsp : sp ≠ [])
    (e : ShownEntry) (he : e ∈ sp) (pid : String) (hid : e.id = some pid)
    (hne : pid ≠ "") : pid ∈ phraseStage phrases ml sp acc := by
  have hE : sp.isEmpty = false := by
    cases hE : sp.isEmpty with
    | true => exact absurd (List.isEmpty_iff.mp hE) hsp
    | false => rfl
  unfold phraseStage
  rw [hfire, if_pos rfl, hE]
  simpa using mem_addShownAll sp acc e he pid hid hne

/-! ### Claim C3 — dismissal and price phrases reject all recently shown -/

/-- Claim C3: for an existing session and a non-empty recently-shown list
whose entries carry (non-empty) ids, a message containing a generic
dismissal phrase or a price-objection phrase makes
`detect_implicit_rejection` return a list containing every shown id; in
particular the spec's concrete example returns both `"A"` and `"B"`. -/
theorem detect_dismissal_rejects_all_shown (message : String)
    (sp : List ShownEntry) (hsp : sp ≠ [])
    (hids : ∀ e ∈ sp, ∃ pid, e.id = some pid ∧ pid ≠ "")
    (hfire : mentionsGenericDismissal message = true
      ∨ mentionsPriceObjection message = true) :
    (∀ e ∈ sp, ∀ pid, e.id = some pid →
      pid ∈ detectImplicitRejection true message (some sp))
    ∧ "A" ∈ detectImplicitRejection true "not these, show different"
        (some [⟨some "A"⟩, ⟨some "B"⟩])
    ∧ "B" ∈ detectImplicitRejection true "not these, show different"
        (some [⟨some "A"⟩, ⟨some "B"⟩]) := by
  refine ⟨?_, by decide, by decide⟩
  intro e he pid hid
  obtain ⟨pid0, hid0, hne0⟩ := hids e he
  have hpe : pid0 = pid := by
    rw [hid0] at hid
    exact Option.some.inj hid
  subst hpe
  show pid0 ∈ detectImplicitRejection true message (some sp)
  simp only [detectImplicitRejection, mentionsGenericDismissal,
    mentionsPriceObjection, normalizeMsg] at hfire ⊢
  simp only [Bool.not_true, Bool.false_eq_true, if_false, Option.getD_some]
  rcases hfire with hfire | hfire
  · exact mem_stage5_of_mem _ _ _
      (mem_phraseStage_of_mem _ _ _ _ _
        (mem_phraseStage_of_mem _ _ _ _ _
          (mem_phraseStage rejectionPhrases _ sp _ hfire hsp e he pid0 hid0 hne0)))
  · exact mem_stage5_of_mem _ _ _
      (mem_phraseStage_of_mem _ _ _ _ _
        (mem_phraseStage priceRejectionPhrases _ sp _ hfire hsp e he pid0 hid0 hne0))

/-- Witness for C3: the spec's concrete example discharges all
hypotheses ("not these, show different" over ids `A`, `B`). -/
theorem detect_dismissal_rejects_all_shown_witness :
    "A" ∈ detectImplicitRejection true "not these, show different"
      (some [⟨some "A"⟩, ⟨some "B"⟩]) :=
  (detect_dismissal_rejects_all_shown "not these, show different"
    [⟨some "A"⟩, ⟨some "B"⟩] (by decide)
    (by intro e he
        rcases List.mem_cons.mp he with h | h
        · exact ⟨"A", by rw [h], by decide⟩
        · rcases List.mem_cons.mp h with h2 | h2
          · exact ⟨"B", by rw [h2], by decide⟩
          · simp at h2)
    (Or.inl (by decide))).1
    ⟨some "A"⟩ (by decide) "A" rfl

/-! ### Duplicate-freedom lemmas for `detect_implicit_rejection` -/

theorem foldl_nodup {β : Type} (f : List String → β → List String)
    (hf : ∀ a b, f a b = a ∨ ∃ p, p ∉ a ∧ f a b = a ++ [p]) :
    ∀ (l : List β) (a : List String), a.Nodup → (l.foldl f a).Nodup := by
  intro l
  induction l with
  | nil => intro a ha; simpa using ha
  | cons b bs ih =>
    intro a ha
    rw [List.foldl_cons]
    rcases hf a b with h | ⟨p, hp, h⟩
    · rw [h]; exact ih a ha
    · rw [h]
      exact ih _ (by simp [List.nodup_append, ha, hp])

theorem addShownAll_nodup (sp : List ShownEntry) (a : List String)
    (ha : a.Nodup) : (addShownAll sp a).Nodup := by
  refine foldl_nodup _ ?_ sp a ha
  intro a e
  cases e.id with
  | none => exact Or.inl rfl
  | some pid =>
    show (if pid ≠ "" ∧ pid ∉ a then a ++ [pid] else a) = a
      ∨ ∃ p, p ∉ a ∧ (if pid ≠ "" ∧ pid ∉ a then a ++ [pid] else a) = a ++ [p]
    by_cases hc : pid ≠ "" ∧ pid ∉ a
    · exact Or.inr ⟨pid, hc.2, by rw [if_pos hc]⟩
    · exact Or.inl (by rw [if_neg hc])

theorem phraseStage_nodup (phrases : List TrackPat) (ml : List Char)
    (sp : List ShownEntry) (a : List String) (ha : a.Nodup) :
    (phraseStage phrases ml sp a).Nodup := by
  unfold phraseStage
  split
  · split
    · exact ha
    · exact addShownAll_nodup sp a ha
  · exact ha

theorem stage5_nodup (mlUpper : List Char) (a : List String) (ha : a.Nodup) :
    (stage5 mlUpper a).Nodup := by
  refine foldl_nodup _ ?_ _ a ha
  intro a pid
  by_cases hc : pid ∉ a
  · exact Or.inr ⟨pid, hc, by rw [if_pos hc]⟩
  · exact Or.inl (by rw [if_neg hc])

theorem stage1Step_cases (ml : List Char) (sp : List ShownEntry)
    (acc : List String) (pi : TrackPat × Nat) :
    stage1Step ml sp acc pi = acc
    ∨ ∃ pid, idAt sp pi.2 = some pid ∧ pid ≠ ""
        ∧ stage1Step ml sp acc pi = acc ++ [pid] := by
  cases h1 : searchPattern pi.1 ml with
  | false => exact Or.inl (by simp [stage1Step, h1])
  | true =>
    cases h2 : (!sp.isEmpty && decide (pi.2 < sp.length)) with
    | false => exact Or.inl (by simp [stage1Step, h1, h2])
    | true =>
      cases hE : entryAt sp pi.2 with
      | none => exact Or.inl (by simp [stage1Step, h1, h2, hE])
      | some e =>
        cases hid : e.id with
        | none => exact Or.inl (by simp [stage1Step, h1, h2, hE, hid])
        | some pid =>
          by_cases hne : pid ≠ ""
          · refine Or.inr ⟨pid, by simp [idAt, hE, hid], hne, ?_⟩
            simp [stage1Step, h1, h2, hE, hid, hne]
          · have hpe : pid = "" := not_not.mp hne
            subst hpe
            exact Or.inl (by simp [stage1Step, h1, h2, hE, hid])

theorem stage1_foldl_nodup (ml : List Char) (sp : List ShownEntry)
    (hdist : distinctIds sp) :
    ∀ (ps : List (TrackPat × Nat)) (acc : List String),
      (ps.map Prod.snd).Nodup → acc.Nodup →
      (∀ pid ∈ acc, ∀ q ∈ ps, idAt sp q.2 ≠ some pid) →
      (ps.foldl (stage1Step ml sp) acc).Nodup := by
  intro ps
  induction ps with
  | nil => intro acc _ ha _; simpa using ha
  | cons q qs ih =>
    intro acc hidx ha havoid
    have hidx2 : (q.2 :: qs.map Prod.snd).Nodup := by simpa using hidx
    rw [List.foldl_cons]
    rcases stage1Step_cases ml sp acc q with h | ⟨pid, hpid, hne, h⟩
    · rw [h]
      refine ih acc (List.nodup_cons.mp hidx2).2 ha ?_
      intro p hp q2 hq2
      exact havoid p hp q2 (List.mem_cons_of_mem _ hq2)
    · rw [h]
      have hpacc : pid ∉ acc := fun hmem =>
        havoid pid hmem q (List.mem_cons_self q qs) hpid
      refine ih _ (List.nodup_cons.mp hidx2).2
        (by simp [List.nodup_append, ha, hpacc]) ?_
      intro p hp q2 hq2
      rcases List.mem_append.mp hp with hp1 | hp1
      · exact havoid p hp1 q2 (List.mem_cons_of_mem _ hq2)
      · have hpp : p = pid := List.mem_singleton.mp hp1
        subst hpp
        intro hcontra
        have heq : q2.2 = q.2 := hdist _ _ _ hcontra hpid
        have hnotin : q.2 ∉ qs.map Prod.snd := (List.nodup_cons.mp hidx2).1
        exact hnotin (heq ▸ List.mem_map_of_mem Prod.snd hq2)

theorem stage1_nodup (ml : List Char) (sp : List ShownEntry)
    (hdist : distinctIds sp) : (stage1 ml sp []).Nodup := by
  refine stage1_foldl_nodup ml sp hdist ordinalPatterns [] ?_ List.nodup_nil ?_
  · decide
  · intro pid hp
    simp at hp

/-! ### Claim C10 — the returned list has no duplicate ids -/

/-- Claim C10: for an existing session and a recently-shown list with
pairwise-distinct id values, `detect_implicit_rejection` returns a
duplicate-free list: pattern 1 appends ids of distinct indices (hence
distinct ids), and every later pattern class guards its appends with a
membership check on the accumulated list. -/
theorem detect_nodup_of_distinct_ids (message : String) (sp : List ShownEntry)
    (hdist : distinctIds sp) :
    (detectImplicitRejection true message (some sp)).Nodup := by
  simp only [detectImplicitRejection]
  simp only [Bool.not_true, Bool.false_eq_true, if_false, Option.getD_some]
  exact stage5_nodup _ _
    (phraseStage_nodup _ _ _ _
      (phraseStage_nodup _ _ _ _
        (phraseStage_nodup _ _ _ _ (stage1_nodup _ sp hdist))))

/-- Witness for C10: concrete distinct entries `A`, `B` on a message that
fires several pattern classes at once. -/
theorem detect_nodup_of_distinct_ids_witness :
    (detectImplicitRejection true "not the first, not these and cheaper"
      (some [⟨some "A"⟩, ⟨some "B"⟩])).Nodup := by
  have hd : distinctIds [⟨some "A"⟩, ⟨some "B"⟩] := by
    intro i j pid h1 h2
    match i, j with
    | 0, 0 => rfl
    | 1, 1 => rfl
    | 0, 1 =>
      simp [idAt, entryAt] at h1 h2
      rw [← h1] at h2
      exact absurd h2 (by decide)
    | 1, 0 =>
      simp [idAt, entryAt] at h1 h2
      rw [← h1] at h2
      exact absurd h2 (by decide)
    | 0, j + 2 => simp [idAt, entryAt] at h2
    | 1, j + 2 => simp [idAt, entryAt] at h2
    | i + 2, _ => simp [idAt, entryAt] at h1
  exact detect_nodup_of_distinct_ids "not the first, not these and cheaper"
    [⟨some "A"⟩, ⟨some "B"⟩] hd

/-! ### Trace lemmas for the rejected-set invariant -/

theorem setUnion_mem : ∀ (b a : List String) (x : String),
    x ∈ setUnion a b → x ∈ a ∨ x ∈ b := by
  intro b
  induction b with
  | nil => intro a x h; exact Or.inl (by simpa [setUnion] using h)
  | cons i rest ih =>
    intro a x h
    have h2 : x ∈ setUnion (if i ∈ a then a else a ++ [i]) rest := by
      simpa [setUnion, List.foldl_cons] using h
    rcases ih _ x h2 with h3 | h3
    · by_cases hi : i ∈ a
      · rw [if_pos hi] at h3
        exact Or.inl h3
      · rw [if_neg hi] at h3
        rcases List.mem_append.mp h3 with h4 | h4
        · exact Or.inl h4
        · exact Or.inr (by simp [List.mem_singleton.mp h4])
    · exact Or.inr (List.mem_cons_of_mem _ h3)

theorem getSession_fst_lookup {now : Nat} {m : ManagerState} {sid : String}
    {s : SessionState} (h : (getSession now m sid).1 = some s) :
    lookupSession m.sessions sid = some s := by
  cases hl : lookupSession m.sessions sid with
  | none => simp [getSession, hl] at h
  | some s0 =>
    cases hexp : isExpired now m.timeout s0 with
    | true => simp [getSession, hl, hexp] at h
    | false =>
      simp [getSession, hl, hexp] at h
      rw [h]


theorem rejectedWithin_weaken {m : ManagerState} {sid : String}
    {R R2 : List String} (h : rejectedWithin m sid R)
    (hsub : ∀ x ∈ R, x ∈ R2) : rejectedWithin m sid R2 :=
  fun kv hkv hk x hx => hsub x (h kv hkv hk x hx)

theorem rejectedWithin_getSession (now : Nat) {m : ManagerState} {sid : String}
    (sid2 : String) {R : List String} (h : rejectedWithin m sid R) :
    rejectedWithin (getSession now m sid2).2 sid R :=
  fun kv hkv hk x hx => h kv (getSession_entries_subset hkv) hk x hx

theorem rejectedWithin_updateSession {now : Nat} {m : ManagerState} {sid : String}
    {s : SessionState} {R : List String} (h : rejectedWithin m sid R)
    (hs : ∀ x ∈ s.rejectedProducts, x ∈ R) :
    rejectedWithin (updateSession now m sid s) sid R := by
  intro kv hkv hk x hx
  rcases updateSession_entries hkv with h1 | ⟨_, h2⟩
  · exact h kv h1 hk x hx
  · rw [h2] at hx
    exact hs x hx

theorem rejectedWithin_markShown {now : Nat} {m : ManagerState} {sid : String}
    {ids R : List String} (h : rejectedWithin m sid R) :
    rejectedWithin (markShown now m sid ids) sid R := by
  unfold markShown
  rcases hG : getSession now m sid with ⟨sOpt, m1⟩
  have hm1 : rejectedWithin m1 sid R := by
    have := rejectedWithin_getSession now sid h
    rwa [hG] at this
  cases sOpt with
  | none => exact hm1
  | some s =>
    refine rejectedWithin_updateSession hm1 ?_
    have hmem : (sid, s) ∈ m.sessions :=
      lookupSession_mem (getSession_fst_lookup (by rw [hG]))
    exact fun x hx => h (sid, s) hmem rfl x hx

theorem rejectedWithin_markRejected {now : Nat} {m : ManagerState} {sid : String}
    {ids R : List String} (h : rejectedWithin m sid R) :
    rejectedWithin (markRejected now m sid ids) sid (R ++ ids) := by
  unfold markRejected
  rcases hG : getSession now m sid with ⟨sOpt, m1⟩
  have hm1 : rejectedWithin m1 sid R := by
    have := rejectedWithin_getSession now sid h
    rwa [hG] at this
  cases sOpt with
  | none => exact rejectedWithin_weaken hm1 fun x hx => List.mem_append_left _ hx
  | some s =>
    refine rejectedWithin_updateSession
      (rejectedWithin_weaken hm1 fun x hx => List.mem_append_left _ hx) ?_
    intro x hx
    have hmem : (sid, s) ∈ m.sessions :=
      lookupSession_mem (getSession_fst_lookup (by rw [hG]))
    rcases setUnion_mem ids s.rejectedProducts x hx with h1 | h1
    · exact List.mem_append_left _ (h (sid, s) hmem rfl x h1)
    · exact List.mem_append_right _ h1

theorem runOps_rejectedWithin (sid : String) :
    ∀ (ops : List TrackerOp) (m : ManagerState) (R : List String),
      rejectedWithin m sid R →
      rejectedWithin (runOps sid ops m) sid (R ++ (ops.map opRejectedIds).flatten) := by
  intro ops
  induction ops with
  | nil => intro m R h; simpa [runOps] using h
  | cons op ops ih =>
    intro m R h
    have h1 : rejectedWithin (applyOp sid m op) sid (R ++ opRejectedIds op) := by
      cases op with
      | markShownOp n ids =>
        exact rejectedWithin_weaken (rejectedWithin_markShown h)
          fun x hx => List.mem_append_left _ hx
      | markRejectedOp n ids => exact rejectedWithin_markRejected h
      | detectOp n msg sh =>
        exact rejectedWithin_weaken (rejectedWithin_getSession n sid h)
          fun x hx => List.mem_append_left _ hx
    have h2 := ih (applyOp sid m op) (R ++ opRejectedIds op) h1
    have hrun : runOps sid (op :: ops) m = runOps sid ops (applyOp sid m op) := rfl
    rw [hrun]
    refine rejectedWithin_weaken h2 ?_
    intro x hx
    simpa [List.append_assoc] using hx

/-! ### Claim C2 — rejected set stays within the explicitly supplied ids -/

/-- Claim C2: starting from a freshly created session, after any trace of
`mark_shown` / `mark_rejected` / `detect_implicit_rejection` calls the
session's rejected set is contained in the union of the ids passed to
`mark_shown`, the ids passed to `mark_rejected` and the ids explicitly
named in detection messages. (The proof shows the stronger fact that only
`mark_rejected` arguments ever enter the rejected set — detection never
mutates it.) -/
theorem rejected_subset_of_trace (sid : String) (t0 timeout : Nat)
    (ops : List TrackerOp) (kv : String × SessionState)
    (hkv : kv ∈ (runOps sid ops ⟨[(sid, freshSession sid t0)], timeout⟩).sessions)
    (hk : kv.1 = sid) (x : String) (hx : x ∈ kv.2.rejectedProducts) :
    x ∈ (ops.map opShownIds).flatten ∨ x ∈ (ops.map opRejectedIds).flatten
      ∨ x ∈ (ops.map opNamedIds).flatten := by
  have h0 : rejectedWithin ⟨[(sid, freshSession sid t0)], timeout⟩ sid [] := by
    intro kv2 hkv2 hk2 y hy
    simp at hkv2
    rw [hkv2] at hy
    simp [freshSession] at hy
  have h := runOps_rejectedWithin sid ops _ [] h0 kv hkv hk x hx
  exact Or.inr (Or.inl (by simpa using h))

/-- Witness for C2: a concrete trace that shows and then rejects `P1`. -/
theorem rejected_subset_of_trace_witness :
    "P1" ∈ (([TrackerOp.markShownOp 0 ["P1"], TrackerOp.markRejectedOp 0 ["P1"]].map
        opShownIds).flatten)
    ∨ "P1" ∈ (([TrackerOp.markShownOp 0 ["P1"], TrackerOp.markRejectedOp 0 ["P1"]].map
        opRejectedIds).flatten)
    ∨ "P1" ∈ (([TrackerOp.markShownOp 0 ["P1"], TrackerOp.markRejectedOp 0 ["P1"]].map
        opNamedIds).flatten) :=
  rejected_subset_of_trace "s" 0 10
    [TrackerOp.markShownOp 0 ["P1"], TrackerOp.markRejectedOp 0 ["P1"]]
    ("s", { freshSession "s" 0 with
        shownProducts := ["P1"], rejectedProducts := ["P1"] })
    (List.mem_cons_self _ _) rfl "P1" (List.mem_cons_self _ _)

/-! ### Step lemmas for the orchestrator -/

theorem lookupSession_updateSession {now : Nat} {m : ManagerState} {sid : String}
    (s : SessionState) (h : (lookupSession m.sessions sid).isSome) :
    lookupSession (updateSession now m sid s).sessions sid
      = some { s with lastUpdated := now } := by
  unfold updateSession
  rw [if_pos h]
  exact lookupSession_setSession_of_mem _ h

theorem isExpired_lastUpdated_now {now timeout : Nat} {s : SessionState}
    (h : s.lastUpdated = now) : isExpired now timeout s = false := by
  simp [isExpired, h]

theorem appendTurn_lookup {now : Nat} {m : ManagerState} {sid : String}
    (s : SessionState) (hl : lookupSession m.sessions sid = some s)
    (hfresh : isExpired now m.timeout s = false) (t : Turn) :
    lookupSession (appendTurn now m sid t).sessions sid
      = some { s with conversationHistory := s.conversationHistory ++ [t], lastUpdated := now } := by
  unfold appendTurn
  rw [getSession_of_lookup hl hfresh]
  exact lookupSession_updateSession _ (by simp [hl])

theorem markRejected_lookup {now : Nat} {m : ManagerState} {sid : String}
    (s : SessionState) (hl : lookupSession m.sessions sid = some s)
    (hfresh : isExpired now m.timeout s = false) (ids : List String) :
    lookupSession (markRejected now m sid ids).sessions sid
      = some { s with rejectedProducts := setUnion s.rejectedProducts ids, lastUpdated := now } := by
  unfold markRejected
  rw [getSession_of_lookup hl hfresh]
  exact lookupSession_updateSession _ (by simp [hl])

theorem extract_preserves_history (hasLLM : Bool) (llm : LLMOutcome)
    (parse : String → Option Json) (now : Nat) (m : ManagerState) (sid : String)
    (s : SessionState) (hl : lookupSession m.sessions sid = some s)
    (hfresh : isExpired now m.timeout s = false) :
    ∃ s2, lookupSession
        (extractAccumulatedConstraints hasLLM llm parse now m sid).state.sessions sid
        = some s2
      ∧ s2.conversationHistory = s.conversationHistory := by
  have hG : getSession now m sid = (some s, m) := getSession_of_lookup hl hfresh
  cases hasLLM with
  | false => exact ⟨s, by simpa [extractAccumulatedConstraints] using hl, rfl⟩
  | true =>
    cases hH : s.conversationHistory.isEmpty with
    | true => exact ⟨s, by simp [extractAccumulatedConstraints, hG, hH, hl], rfl⟩
    | false =>
      cases hC : pyTruthy s.accumulatedConstraints with
      | true => exact ⟨s, by simp [extractAccumulatedConstraints, hG, hH, hC, hl], rfl⟩
      | false =>
        cases llm with
        | raise => exact ⟨s, by simp [extractAccumulatedConstraints, hG, hH, hC, hl], rfl⟩
        | reply t =>
          cases hP : parse (cleanLLMJson t) with
          | none =>
            exact ⟨s, by simp [extractAccumulatedConstraints, hG, hH, hC, hP, hl], rfl⟩
          | some j =>
            have hupd : lookupSession
                (extractAccumulatedConstraints true (LLMOutcome.reply t) parse now
                  m sid).state.sessions sid
                = some { s with accumulatedConstraints := j, lastUpdated := now } := by
              simp [extractAccumulatedConstraints, hG, hH, hC, hP]
              exact lookupSession_updateSession _ (by simp [hl])
            exact ⟨_, hupd, rfl⟩

theorem stepsAfterDetect_history (o : Oracles) (now : Nat) (m3 : ManagerState)
    (sid : String) (message : String) (s1 : SessionState)
    (hl3 : lookupSession m3.sessions sid = some s1)
    (hfresh3 : isExpired now m3.timeout s1 = false) :
    ∃ s2, lookupSession
        (extractAccumulatedConstraints o.hasLLM o.extractLLM o.parse now
          (getConversationHistory now (addUserMessage now m3 sid message) sid).2
          sid).state.sessions sid
        = some s2
      ∧ Turn.mk "user" message ∈ s2.conversationHistory := by
  have h4 : lookupSession (addUserMessage now m3 sid message).sessions sid
      = some { s1 with conversationHistory := s1.conversationHistory ++ [Turn.mk "user" message], lastUpdated := now } :=
    appendTurn_lookup s1 hl3 hfresh3 _
  have hfresh4 : isExpired now (addUserMessage now m3 sid message).timeout
      { s1 with conversationHistory := s1.conversationHistory ++ [Turn.mk "user" message], lastUpdated := now } = false :=
    isExpired_lastUpdated_now rfl
  have hG4 : getSession now (addUserMessage now m3 sid message) sid
      = (some { s1 with conversationHistory := s1.conversationHistory ++ [Turn.mk "user" message], lastUpdated := now }, addUserMessage now m3 sid message) :=
    getSession_of_lookup h4 hfresh4
  have h5 : (getConversationHistory now (addUserMessage now m3 sid message) sid).2
      = addUserMessage now m3 sid message := by
    simp [getConversationHistory, hG4]
  rw [h5]
  obtain ⟨s3, h6, h7⟩ := extract_preserves_history o.hasLLM o.extractLLM o.parse now
    (addUserMessage now m3 sid message) sid _ h4 hfresh4
  refine ⟨s3, h6, ?_⟩
  rw [h7]
  exact List.mem_append_right _ (List.mem_singleton_self _)

theorem stepsBeforeSearch_history (o : Oracles) (now : Nat) (m : ManagerState)
    (sid : String) (message : String) (s : SessionState)
    (hl : lookupSession m.sessions sid = some s)
    (hfresh : isExpired now m.timeout s = false) :
    ∃ s2, lookupSession (stepsBeforeSearch o now m sid message).2.2.sessions sid
        = some s2
      ∧ Turn.mk "user" message ∈ s2.conversationHistory := by
  have hG : getSession now m sid = (some s, m) := getSession_of_lookup hl hfresh
  have hshown : getShownProducts now m sid = (s.shownProducts, m) := by
    simp [getShownProducts, hG]
  have hdet : detectManager now m sid message
      (some ((pyLastN 5 s.shownProducts).map fun pid => ShownEntry.mk (some pid)))
      = (detectImplicitRejection true message
          (some ((pyLastN 5 s.shownProducts).map fun pid => ShownEntry.mk (some pid))), m) := by
    simp [detectManager, hG]
  simp only [stepsBeforeSearch, hshown, hdet]
  cases hR : (detectImplicitRejection true message
      (some ((pyLastN 5 s.shownProducts).map fun pid => ShownEntry.mk (some pid)))).isEmpty with
  | true =>
    simp only [hR, if_true]
    exact stepsAfterDetect_history o now m sid message s hl hfresh
  | false =>
    simp only [hR, Bool.false_eq_true, if_false]
    refine stepsAfterDetect_history o now _ sid message _
      (markRejected_lookup s hl hfresh _) (isExpired_lastUpdated_now rfl)

/-! ### Claim C9 — top-level exception handling in `generate_response` -/

/-- Claim C9: when the retrieval collaborator raises — the one call in
steps 3–8 whose exception reaches the top-level handler — the orchestrator
returns the fixed apologetic response (empty recommendation list, exactly
two generic follow-up questions) instead of propagating, and the session
state committed by the earlier steps is kept: the final state is exactly
the state after steps 1–3, and in particular the user turn recorded in
step 2 is still in the session history. -/
theorem generateResponse_search_failure_fallback (o : Oracles) (now : Nat)
    (m : ManagerState) (sid : String) (message : String)
    (hsearch : o.searchResult = Except.error ()) :
    (generateResponse o now m sid message).1 = getFallbackResponse sid
    ∧ (generateResponse o now m sid message).1.recommendedProductIds = []
    ∧ (generateResponse o now m sid message).1.followUpQuestions.length = 2
    ∧ (generateResponse o now m sid message).2
        = (stepsBeforeSearch o now m sid message).2.2
    ∧ (∀ s, lookupSession m.sessions sid = some s →
        isExpired now m.timeout s = false →
        ∃ s2, lookupSession (generateResponse o now m sid message).2.sessions sid
            = some s2
          ∧ Turn.mk "user" message ∈ s2.conversationHistory) := by
  have hred : generateResponse o now m sid message
      = (getFallbackResponse sid, (stepsBeforeSearch o now m sid message).2.2) := by
    unfold generateResponse
    rw [hsearch]
  refine ⟨by rw [hred], by rw [hred]; rfl, by rw [hred]; rfl, by rw [hred], ?_⟩
  intro s hl hfresh
  rw [hred]
  exact stepsBeforeSearch_history o now m sid message s hl hfresh

/-- Witness for C9: a raising retrieval call on a fresh session with one
incoming message yields the apologetic response and keeps the user turn. -/
theorem generateResponse_search_failure_fallback_witness :
    (generateResponse
        ⟨true, LLMOutcome.raise, (fun _ => none), Except.error (), LLMOutcome.raise,
          LLMOutcome.raise⟩
        0 ⟨[("s", freshSession "s" 0)], 100⟩ "s" "hello").1
      = getFallbackResponse "s"
    ∧ (∃ s2, lookupSession
          (generateResponse
            ⟨true, LLMOutcome.raise, (fun _ => none), Except.error (), LLMOutcome.raise,
              LLMOutcome.raise⟩
            0 ⟨[("s", freshSession "s" 0)], 100⟩ "s" "hello").2.sessions "s"
          = some s2
        ∧ Turn.mk "user" "hello" ∈ s2.conversationHistory) :=
  ⟨(generateResponse_search_failure_fallback _ 0 ⟨[("s", freshSession "s" 0)], 100⟩
      "s" "hello" rfl).1,
   (generateResponse_search_failure_fallback _ 0 ⟨[("s", freshSession "s" 0)], 100⟩
      "s" "hello" rfl).2.2.2.2 (freshSession "s" 0) rfl rfl⟩

end Ecom





